import Mathlib

/-!
Verification of the resource-scanning / archive-packing subsystem
(`actor/v2action/resource.go`).

The Go code is shallowly embedded:

* `Resource` mirrors the descriptor struct (`Filename`, `Mode`, `SHA1`, `Size`).
* A zip archive is a list of `ZipEntry` values: the entry's name, whether the
  reader classifies it as a directory, its stored permission mode, compression
  method, its byte content, and the errors (if any) that opening respectively
  reading the entry's stream would report.  Byte content is `List Nat`.
* A directory tree, as enumerated by `filepath.Walk`, is a flat list of
  (relative path components, node) pairs in visiting order (`DirFS`); the root
  itself is the entry with an empty component list.  A node is a file (mode,
  content, open error, read error) or a directory (readdir error); stat
  failures surface through the same error slots.
* Go functions returning `(value, error)` become `Except`-valued functions;
  a non-`nil` Go error is `.error` and the accompanying value is dropped, as
  every caller of these functions does.
* `sha1.New`/`io.Copy`/`Sum` pipelines become `sha1Hex`, a deterministic
  fingerprint of the byte list.  Only determinism of SHA-1 is relied on.
* `filepath.ToSlash` is the identity on a host whose separator is already `/`
  (zip entry names always use `/`); `filepath.Join`/`filepath.Rel` become
  joining and splitting on `/`; path cleaning of `..`/`.` segments is outside
  the model.
-/

namespace V2Action

/-- `DefaultFolderPermissions = 0755` from the `const` block. -/
def DefaultFolderPermissions : Nat := 0o755

/-- `DefaultArchiveFilePermissions = 0744` from the `const` block. -/
def DefaultArchiveFilePermissions : Nat := 0o744

/-- `zip.Deflate` (method 8), the compression method set on every header. -/
def zipDeflate : Nat := 8

/-- The `Resource` struct (a rename of `ccv2.Resource`): one descriptor for a
filesystem entry.  Field defaults are Go's zero values, so `{}` is
`Resource{}`. -/
structure Resource where
  Filename : String := ""
  Mode : Nat := 0
  SHA1 : String := ""
  Size : Nat := 0
deriving Repr, DecidableEq

/-- The `FileChangedError` struct. -/
structure FileChangedError where
  Filename : String
deriving Repr, DecidableEq

/-- `FileChangedError.Error()`: `fmt.Sprint("SHA1 mismatch for:", e.Filename)`
(no separating space, both operands being strings). -/
def FileChangedError.Error (e : FileChangedError) : String :=
  "SHA1 mismatch for:" ++ e.Filename

/-- The error type of the subsystem: the domain-specific `FileChangedError`
or a generic I/O error carrying its message. -/
inductive PackError where
  | fileChanged (e : FileChangedError)
  | ioError (msg : String)
deriving Repr, DecidableEq

/-- Model of the SHA-1 hex digest of a byte stream
(`sha1.New` + `io.Copy` + `fmt.Sprintf "%x"`): a deterministic fingerprint of
the byte list.  Only determinism (and non-emptiness of the digest string) of
real SHA-1 is used by the development. -/
def sha1Hex (content : List Nat) : String :=
  "sha1:" ++ String.intercalate "," (content.map toString)

/-- `filepath.ToSlash`: the identity on a host whose separator is `/`. -/
def toSlash (s : String) : String := s

/-- `strings.HasSuffix`. -/
def hasSuffix (s sfx : String) : Bool := decide (sfx.data <:+ s.data)

/-- A name contains no `/` (a single path component). -/
def slashFree (s : String) : Bool := decide ('/' ∉ s.data)

/-- Join relative path components with `/`: the result of
`filepath.ToSlash (filepath.Rel root path)` for the entry at those
components. -/
def joinPath : List String → String
  | [] => ""
  | [p] => p
  | p :: ps => p ++ "/" ++ joinPath ps

/-- Split a character list at every `/`. -/
def splitChars : List Char → List (List Char)
  | [] => [[]]
  | c :: cs =>
    match splitChars cs with
    | [] => [[]]
    | p :: ps => if c = '/' then [] :: p :: ps else (c :: p) :: ps

/-- Split a slash-separated relative path back into its components: the
component-level meaning of resolving the path against a root directory
(`filepath.Join(root, path)` followed by the OS lookup). -/
def splitPath (s : String) : List String := (splitChars s.data).map String.mk

/-- One entry of a zip archive as exposed by the (ykk/`archive/zip`) reader or
produced by `zip.Writer`: `name` is `FileHeader.Name`, `isDir` is
`FileInfo().IsDir()`, `mode` the permission bits carried by the header,
`method` the compression method, `content` the entry's bytes (the reader
refuses entries whose stream disagrees with the declared size, so
`content.length` is `FileInfo().Size()`).  `openErr`/`readErr` are the errors
`Open()` respectively reading the opened stream would return. -/
structure ZipEntry where
  name : String
  isDir : Bool := false
  mode : Nat := 0
  method : Nat := 0
  content : List Nat := []
  openErr : Option String := none
  readErr : Option String := none
deriving Repr, DecidableEq

/-- `findInResources`: first descriptor whose `Filename` equals `path`,
else the zero-value `Resource{}`. -/
def findInResources (path : String) (filesToInclude : List Resource) : Resource :=
  match filesToInclude with
  | [] => {}
  | resource :: rest =>
    if resource.Filename = path then resource else findInResources path rest

/-- `addFileToZipFromFileSystem`: build the header for one entry and write it
into the destination archive.  `srcContent`/`srcReadErr` model the opened
source stream `srcFile` (the bytes `io.Copy` would deliver, or the error it
would fail with); `isDir` is `fileInfo.IsDir()`.  A directory name gets a
trailing `/`; `header.Method = zip.Deflate`; `header.SetMode(mode)`.  For a
file the copy streams through `io.MultiWriter(sum, destFileWriter)`, so the
hashed bytes are exactly the written bytes, and the recomputed digest is
compared with `sha1Sum` immediately after the copy; a mismatch is
`FileChangedError{srcPath}`.  On success the written entry is returned. -/
def addFileToZipFromFileSystem (srcPath : String) (srcContent : List Nat)
    (srcReadErr : Option String) (isDir : Bool) (destPath : String)
    (sha1Sum : String) (mode : Nat) : Except PackError ZipEntry :=
  let destPath := if isDir && !(hasSuffix destPath "/") then destPath ++ "/" else destPath
  if isDir then
    .ok { name := destPath, isDir := true, mode := mode, method := zipDeflate, content := [] }
  else
    match srcReadErr with
    | some msg => .error (.ioError msg)
    | none =>
      let currentSum := sha1Hex srcContent
      if sha1Sum ≠ currentSum then
        .error (.fileChanged ⟨srcPath⟩)
      else
        .ok { name := destPath, isDir := false, mode := mode, method := zipDeflate,
              content := srcContent }

/-- The loop body of `GatherArchiveResources` over the reader's entry list:
directories get `DefaultFolderPermissions` and no hash; files are opened,
streamed through SHA-1, and get `DefaultArchiveFilePermissions`, the digest
and the size.  The first open/read failure aborts. -/
def gatherArchiveLoop : List ZipEntry → Except PackError (List Resource)
  | [] => .ok []
  | e :: rest =>
    if e.isDir then
      match gatherArchiveLoop rest with
      | .error err => .error err
      | .ok resources =>
        .ok ({ Filename := toSlash e.name, Mode := DefaultFolderPermissions } :: resources)
    else
      match e.openErr with
      | some msg => .error (.ioError msg)
      | none =>
        match e.readErr with
        | some msg => .error (.ioError msg)
        | none =>
          match gatherArchiveLoop rest with
          | .error err => .error err
          | .ok resources =>
            .ok ({ Filename := toSlash e.name, Mode := DefaultArchiveFilePermissions,
                   SHA1 := sha1Hex e.content, Size := e.content.length } :: resources)

/-- `GatherArchiveResources` on an already validated reader. -/
def GatherArchiveResources (archive : List ZipEntry) : Except PackError (List Resource) :=
  gatherArchiveLoop archive

/-- A filesystem node as the walk finds it: a regular file (permission mode,
bytes, the error `os.Open` would return, the error reading it would return)
or a directory (the error reading its listing would return).  Stat failures
are modelled through the same slots. -/
inductive FSNode where
  | fileNode (mode : Nat) (content : List Nat)
      (openErr : Option String) (readErr : Option String)
  | dirNode (readDirErr : Option String)
deriving Repr, DecidableEq

/-- A directory subtree as enumerated by `filepath.Walk`: relative path
components (root = `[]`) paired with the node found there, in visiting
order. -/
abbrev DirFS := List (List String × FSNode)

/-- `Modelled from the spec: fixMode lives in the platform files
resource_unix.go / resource_windows.go, which are not part of this source
tree.  Section 3 of the spec describes it as normalizing the on-disk
permission bits so that the owner bit always grants read and execute.` -/
def fixMode (mode : Nat) : Nat := mode ||| 0o500

/-- The `filepath.Walk` callback of `GatherDirectoryResources`, folded over
the walk's entry list.  A stat/readdir failure arrives through the callback's
error argument and aborts before anything else; the root (`relPath = "."`)
is skipped; a directory gets `DefaultFolderPermissions`; a file is opened and
hashed and gets `fixMode` of its on-disk mode, the digest and the size. -/
def gatherDirLoop : DirFS → Except PackError (List Resource)
  | [] => .ok []
  | (relPath, node) :: rest =>
    match node with
    | .dirNode (some msg) => .error (.ioError msg)
    | .dirNode none =>
      if relPath = [] then gatherDirLoop rest
      else
        match gatherDirLoop rest with
        | .error err => .error err
        | .ok resources =>
          .ok ({ Filename := joinPath relPath, Mode := DefaultFolderPermissions } :: resources)
    | .fileNode mode content openErr readErr =>
      if relPath = [] then gatherDirLoop rest
      else
        match openErr with
        | some msg => .error (.ioError msg)
        | none =>
          match readErr with
          | some msg => .error (.ioError msg)
          | none =>
            match gatherDirLoop rest with
            | .error err => .error err
            | .ok resources =>
              .ok ({ Filename := joinPath relPath, Mode := fixMode mode,
                     SHA1 := sha1Hex content, Size := content.length } :: resources)

/-- `GatherDirectoryResources`. -/
def GatherDirectoryResources (fs : DirFS) : Except PackError (List Resource) :=
  gatherDirLoop fs

/-- `os.Open`/`Stat` of `filepath.Join(sourceDir, relPath)`: look the
components up in the walk's view of the tree. -/
def lookupFS (fs : DirFS) (relPath : List String) : Option FSNode :=
  (fs.find? (fun e => e.1 = relPath)).map (fun e => e.2)

/-- The loop of `ZipDirectoryResources` over the inclusion list: join the
descriptor's path against the source directory, open and stat it, and hand it
to `addFileToZipFromFileSystem` under the descriptor's declared name, hash
and mode. -/
def zipDirLoop (sourceDir : String) (fs : DirFS) : List Resource → Except PackError (List ZipEntry)
  | [] => .ok []
  | resource :: rest =>
    let fullPath := sourceDir ++ "/" ++ resource.Filename
    match lookupFS fs (splitPath resource.Filename) with
    | none => .error (.ioError ("open " ++ fullPath ++ ": no such file or directory"))
    | some (.dirNode _) =>
      match addFileToZipFromFileSystem fullPath [] none true
          resource.Filename resource.SHA1 resource.Mode with
      | .error err => .error err
      | .ok entry =>
        match zipDirLoop sourceDir fs rest with
        | .error err => .error err
        | .ok entries => .ok (entry :: entries)
    | some (.fileNode _ content openErr readErr) =>
      match openErr with
      | some msg => .error (.ioError msg)
      | none =>
        match addFileToZipFromFileSystem fullPath content readErr false
            resource.Filename resource.SHA1 resource.Mode with
        | .error err => .error err
        | .ok entry =>
          match zipDirLoop sourceDir fs rest with
          | .error err => .error err
          | .ok entries => .ok (entry :: entries)

/-- `ZipDirectoryResources`: pack the inclusion list's entries from the
directory tree into a fresh archive, returned on success. -/
def ZipDirectoryResources (sourceDir : String) (fs : DirFS)
    (filesToInclude : List Resource) : Except PackError (List ZipEntry) :=
  zipDirLoop sourceDir fs filesToInclude

/-- The loop of `ZipArchiveResources` over the *source archive's* entry list:
look the entry's name up in the inclusion list, open the entry, and hand it to
`addFileToZipFromFileSystem` under the same name with the looked-up
descriptor's hash and mode. -/
def zipArchiveLoop (filesToInclude : List Resource) : List ZipEntry → Except PackError (List ZipEntry)
  | [] => .ok []
  | e :: rest =>
    let resource := findInResources e.name filesToInclude
    match e.openErr with
    | some msg => .error (.ioError msg)
    | none =>
      match addFileToZipFromFileSystem e.name e.content e.readErr e.isDir
          e.name resource.SHA1 resource.Mode with
      | .error err => .error err
      | .ok entry =>
        match zipArchiveLoop filesToInclude rest with
        | .error err => .error err
        | .ok entries => .ok (entry :: entries)

/-- `ZipArchiveResources`: repackage the source archive's entries into a fresh
archive, returned on success. -/
def ZipArchiveResources (sourceArchive : List ZipEntry)
    (filesToInclude : List Resource) : Except PackError (List ZipEntry) :=
  zipArchiveLoop filesToInclude sourceArchive

theorem splitChars_ne_nil (cs : List Char) : splitChars cs ≠ [] := by
  induction cs with
  | nil => simp [splitChars]
  | cons c cs ih =>
    rw [splitChars]
    cases h : splitChars cs with
    | nil => simp
    | cons p ps => by_cases hc : c = '/' <;> simp [hc]

theorem splitChars_no_slash {cs : List Char} (h : '/' ∉ cs) : splitChars cs = [cs] := by
  induction cs with
  | nil => rfl
  | cons c cs ih =>
    have hc : c ≠ '/' := fun hh => h (by simp [hh])
    have h2 : '/' ∉ cs := fun hh => h (List.mem_cons_of_mem _ hh)
    rw [splitChars, ih h2]
    simp [hc]

theorem splitChars_append {xs ys : List Char} (h : '/' ∉ xs) :
    splitChars (xs ++ '/' :: ys) = xs :: splitChars ys := by
  induction xs with
  | nil =>
    rw [List.nil_append, splitChars]
    cases hy : splitChars ys with
    | nil => exact absurd hy (splitChars_ne_nil ys)
    | cons p ps => simp
  | cons x xs ih =>
    have hx : x ≠ '/' := fun hh => h (by simp [hh])
    have h2 : '/' ∉ xs := fun hh => h (List.mem_cons_of_mem _ hh)
    rw [List.cons_append, splitChars, ih h2]
    simp [hx]

theorem joinPath_cons_cons (p q : String) (ps : List String) :
    joinPath (p :: q :: ps) = p ++ "/" ++ joinPath (q :: ps) := rfl

theorem data_slash : ("/" : String).data = ['/'] := rfl

theorem splitPath_joinPath {parts : List String} (hne : parts ≠ [])
    (hvalid : ∀ p ∈ parts, p ≠ "" ∧ slashFree p = true) :
    splitPath (joinPath parts) = parts := by
  induction parts with
  | nil => exact absurd rfl hne
  | cons p ps ih =>
    have hp : '/' ∉ p.data := of_decide_eq_true (hvalid p (by simp)).2
    cases ps with
    | nil =>
      show (splitChars (joinPath [p]).data).map String.mk = [p]
      rw [show joinPath [p] = p from rfl, splitChars_no_slash hp]
      rfl
    | cons q ps2 =>
      have hdata : (joinPath (p :: q :: ps2)).data
          = p.data ++ '/' :: (joinPath (q :: ps2)).data := by
        rw [joinPath_cons_cons, String.data_append, String.data_append, data_slash]
        simp
      rw [splitPath, hdata, splitChars_append hp, List.map_cons]
      have ih2 : splitPath (joinPath (q :: ps2)) = q :: ps2 :=
        ih (by simp) (fun x hx => hvalid x (List.mem_cons_of_mem _ hx))
      rw [splitPath] at ih2
      rw [ih2]

theorem hasSuffix_append_slash (s : String) : hasSuffix (s ++ "/") "/" = true := by
  apply decide_eq_true
  exact ⟨s.data, by rw [String.data_append]⟩

/-- The error, if any, that the walk callback reports for one entry: a
stat/readdir failure on the entry itself, or — for a non-root file — the
failure of opening or reading it.  The root's own open/read never happens
(the callback skips `"."` before opening), so only its readdir error
counts. -/
def entryErr : List String × FSNode → Option PackError
  | (_, .dirNode (some msg)) => some (.ioError msg)
  | (_, .dirNode none) => none
  | ([], .fileNode _ _ _ _) => none
  | (_, .fileNode _ _ (some msg) _) => some (.ioError msg)
  | (_, .fileNode _ _ none (some msg)) => some (.ioError msg)
  | (_, .fileNode _ _ none none) => none

/-- The descriptor `GatherDirectoryResources` derives for one walked entry
(`none` for the skipped root). -/
def resourceOf : List String × FSNode → Option Resource
  | ([], _) => none
  | (relPath, .dirNode _) =>
    some { Filename := joinPath relPath, Mode := DefaultFolderPermissions }
  | (relPath, .fileNode mode content _ _) =>
    some { Filename := joinPath relPath, Mode := fixMode mode,
           SHA1 := sha1Hex content, Size := content.length }

/-- Unfolding lemma: one step of the walk at a directory. -/
theorem gatherDirLoop_cons_dir (relPath : List String) (rdErr : Option String) (rest : DirFS) :
    gatherDirLoop ((relPath, .dirNode rdErr) :: rest) =
      match rdErr with
      | some msg => .error (.ioError msg)
      | none =>
        if relPath = [] then gatherDirLoop rest
        else
          match gatherDirLoop rest with
          | .error err => .error err
          | .ok resources =>
            .ok ({ Filename := joinPath relPath, Mode := DefaultFolderPermissions } :: resources) := by
  cases rdErr <;> rw [gatherDirLoop]

/-- Unfolding lemma: one step of the walk at a file. -/
theorem gatherDirLoop_cons_file (relPath : List String) (mode : Nat) (content : List Nat)
    (openErr readErr : Option String) (rest : DirFS) :
    gatherDirLoop ((relPath, .fileNode mode content openErr readErr) :: rest) =
      if relPath = [] then gatherDirLoop rest
      else
        match openErr with
        | some msg => .error (.ioError msg)
        | none =>
          match readErr with
          | some msg => .error (.ioError msg)
          | none =>
            match gatherDirLoop rest with
            | .error err => .error err
            | .ok resources =>
              .ok ({ Filename := joinPath relPath, Mode := fixMode mode,
                     SHA1 := sha1Hex content, Size := content.length } :: resources) := by
  cases openErr <;> cases readErr <;> rw [gatherDirLoop]

/-- On an error-free walk the scan succeeds and returns exactly one
descriptor per non-root entry, in walk order. -/
theorem gatherDirLoop_ok {es : DirFS} (h : ∀ e ∈ es, entryErr e = none) :
    gatherDirLoop es = .ok (es.filterMap resourceOf) := by
  induction es with
  | nil => rfl
  | cons e rest ih =>
    obtain ⟨relPath, node⟩ := e
    have hrest : ∀ x ∈ rest, entryErr x = none := fun x hx => h x (List.mem_cons_of_mem _ hx)
    have hhead := h (relPath, node) (List.mem_cons_self _ _)
    cases node with
    | dirNode rdErr =>
      cases rdErr with
      | some msg => exact absurd hhead (by simp [entryErr])
      | none =>
        cases relPath with
        | nil => rw [gatherDirLoop_cons_dir, if_pos rfl, ih hrest]; rfl
        | cons a k =>
          rw [gatherDirLoop_cons_dir, if_neg (by simp), ih hrest]
          rfl
    | fileNode mode content openErr readErr =>
      cases relPath with
      | nil => rw [gatherDirLoop_cons_file, if_pos rfl, ih hrest]; rfl
      | cons a k =>
        cases openErr with
        | some msg => exact absurd hhead (by simp [entryErr])
        | none =>
          cases readErr with
          | some msg => exact absurd hhead (by simp [entryErr])
          | none =>
            rw [gatherDirLoop_cons_file, if_neg (by simp), ih hrest]
            rfl

/-- The scan aborts with the first failing entry's error. -/
theorem gatherDirLoop_first_error {es : DirFS} {err : PackError}
    (h : es.findSome? entryErr = some err) : gatherDirLoop es = .error err := by
  induction es with
  | nil => simp [List.findSome?] at h
  | cons e rest ih =>
    obtain ⟨relPath, node⟩ := e
    rw [List.findSome?_cons] at h
    cases he : entryErr (relPath, node) with
    | some e2 =>
      rw [he] at h
      cases h
      cases node with
      | dirNode rdErr =>
        cases rdErr with
        | some msg =>
          simp only [entryErr, Option.some.injEq] at he
          rw [gatherDirLoop_cons_dir, ← he]
        | none => simp [entryErr] at he
      | fileNode mode content openErr readErr =>
        cases relPath with
        | nil => simp [entryErr] at he
        | cons a k =>
          cases openErr with
          | some msg =>
            simp only [entryErr, Option.some.injEq] at he
            rw [gatherDirLoop_cons_file, if_neg (by simp), ← he]
          | none =>
            cases readErr with
            | some msg =>
              simp only [entryErr, Option.some.injEq] at he
              rw [gatherDirLoop_cons_file, if_neg (by simp), ← he]
            | none => simp [entryErr] at he
    | none =>
      rw [he] at h
      have hrest := ih h
      cases node with
      | dirNode rdErr =>
        cases rdErr with
        | some msg => simp [entryErr] at he
        | none =>
          cases relPath with
          | nil => rw [gatherDirLoop_cons_dir, if_pos rfl, hrest]
          | cons a k => rw [gatherDirLoop_cons_dir, if_neg (by simp), hrest]
      | fileNode mode content openErr readErr =>
        cases relPath with
        | nil => rw [gatherDirLoop_cons_file, if_pos rfl, hrest]
        | cons a k =>
          cases openErr with
          | some msg => simp [entryErr] at he
          | none =>
            cases readErr with
            | some msg => simp [entryErr] at he
            | none => rw [gatherDirLoop_cons_file, if_neg (by simp), hrest]

/-- With pairwise distinct keys, resolving a walked entry's relative path
finds exactly that entry's node. -/
theorem lookupFS_of_mem {fs : DirFS} (hkeys : (fs.map (fun e => e.1)).Nodup)
    {k : List String} {node : FSNode} (hmem : (k, node) ∈ fs) :
    lookupFS fs k = some node := by
  induction fs with
  | nil => cases hmem
  | cons e rest ih =>
    rw [List.map_cons, List.nodup_cons] at hkeys
    rcases List.mem_cons.mp hmem with h | h
    · subst h
      simp [lookupFS, List.find?]
    · have hne : e.1 ≠ k := by
        intro hk
        exact hkeys.1 (hk ▸ List.mem_map_of_mem (fun x => x.1) h)
      have ihv := ih hkeys.2 h
      rw [lookupFS] at ihv ⊢
      rw [List.find?_cons_of_neg _ (by simp [hne])]
      exact ihv

/-- Writing a directory entry always succeeds, with a `/`-terminated name,
the given mode, deflate method and no content — the declared hash is never
inspected. -/
theorem addFileToZip_dir (srcPath : String) (srcContent : List Nat)
    (srcReadErr : Option String) (destPath sha1Sum : String) (mode : Nat) :
    addFileToZipFromFileSystem srcPath srcContent srcReadErr true destPath sha1Sum mode
      = .ok { name := if hasSuffix destPath "/" then destPath else destPath ++ "/",
              isDir := true, mode := mode, method := zipDeflate, content := [] } := by
  rw [addFileToZipFromFileSystem.eq_def]
  by_cases h : hasSuffix destPath "/" <;> simp [h]

/-- Writing a file entry whose declared hash matches its bytes succeeds. -/
theorem addFileToZip_file_ok (srcPath : String) (srcContent : List Nat)
    (destPath : String) (mode : Nat) :
    addFileToZipFromFileSystem srcPath srcContent none false destPath (sha1Hex srcContent) mode
      = .ok { name := destPath, isDir := false, mode := mode, method := zipDeflate,
              content := srcContent } := by
  rw [addFileToZipFromFileSystem]
  simp

/-- Writing a file entry whose declared hash does not match its bytes fails
with `FileChangedError` naming the source path. -/
theorem addFileToZip_file_mismatch (srcPath : String) (srcContent : List Nat)
    (destPath sha1Sum : String) (mode : Nat) (h : sha1Sum ≠ sha1Hex srcContent) :
    addFileToZipFromFileSystem srcPath srcContent none false destPath sha1Sum mode
      = .error (.fileChanged ⟨srcPath⟩) := by
  rw [addFileToZipFromFileSystem]
  simp [h]

/-- Reading the opened source stream fails during the copy: the I/O error
propagates. -/
theorem addFileToZip_file_readErr (srcPath : String) (srcContent : List Nat)
    (msg : String) (destPath sha1Sum : String) (mode : Nat) :
    addFileToZipFromFileSystem srcPath srcContent (some msg) false destPath sha1Sum mode
      = .error (.ioError msg) := by
  rw [addFileToZipFromFileSystem.eq_def]
  simp

/-- The entry `ZipDirectoryResources` writes for an inclusion-list descriptor
that resolves to a directory. -/
def dirPackedEntry (r : Resource) : ZipEntry :=
  { name := if hasSuffix r.Filename "/" then r.Filename else r.Filename ++ "/",
    isDir := true, mode := r.Mode, method := zipDeflate, content := [] }

/-- The entry `ZipDirectoryResources` writes for an inclusion-list descriptor
that resolves to a file with the given bytes. -/
def filePackedEntry (r : Resource) (content : List Nat) : ZipEntry :=
  { name := r.Filename, isDir := false, mode := r.Mode, method := zipDeflate,
    content := content }

/-- What a successful directory pack guarantees for one descriptor/entry
pair: the descriptor resolved, and the written entry carries the descriptor's
name (with `/` appended for a directory), its declared mode, the deflate
method, and — for a file — bytes whose fingerprint is the declared hash. -/
def zipDirRel (fs : DirFS) (r : Resource) (e : ZipEntry) : Prop :=
  (∃ rdErr, lookupFS fs (splitPath r.Filename) = some (.dirNode rdErr)
    ∧ e = dirPackedEntry r)
  ∨ (∃ mode content,
      lookupFS fs (splitPath r.Filename) = some (.fileNode mode content none none)
      ∧ r.SHA1 = sha1Hex content ∧ e = filePackedEntry r content)

/-- Unfolding lemma: one step of `zipDirLoop`. -/
theorem zipDirLoop_cons (sourceDir : String) (fs : DirFS) (resource : Resource)
    (rest : List Resource) :
    zipDirLoop sourceDir fs (resource :: rest) =
      match lookupFS fs (splitPath resource.Filename) with
      | none => .error (.ioError
          ("open " ++ (sourceDir ++ "/" ++ resource.Filename) ++ ": no such file or directory"))
      | some (.dirNode _) =>
        match addFileToZipFromFileSystem (sourceDir ++ "/" ++ resource.Filename) [] none true
            resource.Filename resource.SHA1 resource.Mode with
        | .error err => .error err
        | .ok entry =>
          match zipDirLoop sourceDir fs rest with
          | .error err => .error err
          | .ok entries => .ok (entry :: entries)
      | some (.fileNode _ content openErr readErr) =>
        match openErr with
        | some msg => .error (.ioError msg)
        | none =>
          match addFileToZipFromFileSystem (sourceDir ++ "/" ++ resource.Filename) content
              readErr false resource.Filename resource.SHA1 resource.Mode with
          | .error err => .error err
          | .ok entry =>
            match zipDirLoop sourceDir fs rest with
            | .error err => .error err
            | .ok entries => .ok (entry :: entries) := by
  rw [zipDirLoop.eq_def]

/-- Inversion: a successful file write means the stream was readable and the
declared hash matched the bytes, and determines the written entry. -/
theorem addFileToZip_file_ok_inv {srcPath : String} {srcContent : List Nat}
    {srcReadErr : Option String} {destPath sha1Sum : String} {mode : Nat} {entry : ZipEntry}
    (h : addFileToZipFromFileSystem srcPath srcContent srcReadErr false destPath sha1Sum mode
          = .ok entry) :
    srcReadErr = none ∧ sha1Sum = sha1Hex srcContent ∧
    entry = { name := destPath, isDir := false, mode := mode, method := zipDeflate,
              content := srcContent } := by
  cases srcReadErr with
  | some msg =>
    rw [addFileToZip_file_readErr] at h
    exact Except.noConfusion h
  | none =>
    by_cases hs : sha1Sum = sha1Hex srcContent
    · rw [hs, addFileToZip_file_ok] at h
      cases h
      exact ⟨rfl, hs, rfl⟩
    · rw [addFileToZip_file_mismatch _ _ _ _ _ hs] at h
      exact Except.noConfusion h

/-- A successful directory pack relates descriptors and written entries
pointwise, in order. -/
theorem zipDirLoop_ok_forall₂ {sourceDir : String} {fs : DirFS}
    {resources : List Resource} {out : List ZipEntry}
    (h : zipDirLoop sourceDir fs resources = .ok out) :
    List.Forall₂ (zipDirRel fs) resources out := by
  induction resources generalizing out with
  | nil =>
    rw [zipDirLoop] at h
    cases h
    exact List.Forall₂.nil
  | cons r rest ih =>
    rw [zipDirLoop_cons] at h
    split at h
    · exact Except.noConfusion h
    · rename_i rdErr hl
      split at h
      · exact Except.noConfusion h
      · rename_i entry heq
        split at h
        · exact Except.noConfusion h
        · rename_i entries hrest
          cases h
          rw [addFileToZip_dir] at heq
          cases heq
          exact List.Forall₂.cons (Or.inl ⟨rdErr, hl, rfl⟩) (ih hrest)
    · rename_i mode content openErr readErr hl
      split at h
      · exact Except.noConfusion h
      · split at h
        · exact Except.noConfusion h
        · rename_i entry heq
          split at h
          · exact Except.noConfusion h
          · rename_i entries hrest
            cases h
            obtain ⟨hre, hsha, hentry⟩ := addFileToZip_file_ok_inv heq
            subst hre hentry
            exact List.Forall₂.cons
              (Or.inr ⟨mode, content, hl, hsha, rfl⟩) (ih hrest)

/-- The entry `ZipArchiveResources` writes for a source-archive directory
entry: the source name (`/`-terminated), with the mode of the descriptor the
inclusion-list lookup returned. -/
def repackedDirEntry (filesToInclude : List Resource) (src : ZipEntry) : ZipEntry :=
  { name := if hasSuffix src.name "/" then src.name else src.name ++ "/",
    isDir := true, mode := (findInResources src.name filesToInclude).Mode,
    method := zipDeflate, content := [] }

/-- The entry `ZipArchiveResources` writes for a source-archive file entry:
same name and bytes, with the mode of the descriptor the inclusion-list
lookup returned. -/
def repackedFileEntry (filesToInclude : List Resource) (src : ZipEntry) : ZipEntry :=
  { name := src.name, isDir := false,
    mode := (findInResources src.name filesToInclude).Mode,
    method := zipDeflate, content := src.content }

/-- What a successful archive repack guarantees for one source-entry/written
entry pair: the source entry opened, and the written entry is the source
entry renamed only by the directory `/` suffix, with the looked-up
descriptor's mode; a file's bytes are kept and their fingerprint equals the
looked-up descriptor's declared hash. -/
def zipArchiveRel (filesToInclude : List Resource) (src e : ZipEntry) : Prop :=
  src.openErr = none ∧
  ((src.isDir = true ∧ e = repackedDirEntry filesToInclude src)
   ∨ (src.isDir = false ∧ src.readErr = none
      ∧ (findInResources src.name filesToInclude).SHA1 = sha1Hex src.content
      ∧ e = repackedFileEntry filesToInclude src))

/-- Unfolding lemma: one step of `zipArchiveLoop`. -/
theorem zipArchiveLoop_cons (filesToInclude : List Resource) (e : ZipEntry)
    (rest : List ZipEntry) :
    zipArchiveLoop filesToInclude (e :: rest) =
      match e.openErr with
      | some msg => .error (.ioError msg)
      | none =>
        match addFileToZipFromFileSystem e.name e.content e.readErr e.isDir
            e.name (findInResources e.name filesToInclude).SHA1
            (findInResources e.name filesToInclude).Mode with
        | .error err => .error err
        | .ok entry =>
          match zipArchiveLoop filesToInclude rest with
          | .error err => .error err
          | .ok entries => .ok (entry :: entries) := by
  obtain ⟨name, isDir, mode, method, content, openErr, readErr⟩ := e
  cases openErr with
  | some msg => rw [zipArchiveLoop]
  | none => rw [zipArchiveLoop]

/-- A successful archive repack relates source entries and written entries
pointwise, in order. -/
theorem zipArchiveLoop_ok_forall₂ {filesToInclude : List Resource}
    {sourceArchive : List ZipEntry} {out : List ZipEntry}
    (h : zipArchiveLoop filesToInclude sourceArchive = .ok out) :
    List.Forall₂ (zipArchiveRel filesToInclude) sourceArchive out := by
  induction sourceArchive generalizing out with
  | nil =>
    rw [zipArchiveLoop] at h
    cases h
    exact List.Forall₂.nil
  | cons e rest ih =>
    rw [zipArchiveLoop_cons] at h
    split at h
    · exact Except.noConfusion h
    · rename_i hoe
      split at h
      · exact Except.noConfusion h
      · rename_i entry heq
        split at h
        · exact Except.noConfusion h
        · rename_i entries hrest
          cases h
          cases hd : e.isDir with
          | true =>
            rw [hd, addFileToZip_dir] at heq
            cases heq
            exact List.Forall₂.cons ⟨hoe, Or.inl ⟨hd, rfl⟩⟩ (ih hrest)
          | false =>
            rw [hd] at heq
            obtain ⟨hre, hsha, hentry⟩ := addFileToZip_file_ok_inv heq
            subst hentry
            exact List.Forall₂.cons
              ⟨hoe, Or.inr ⟨hd, hre, hsha, rfl⟩⟩ (ih hrest)

/-- The descriptor `GatherArchiveResources` derives for one archive entry. -/
def archResourceOf (e : ZipEntry) : Resource :=
  if e.isDir then
    { Filename := toSlash e.name, Mode := DefaultFolderPermissions }
  else
    { Filename := toSlash e.name, Mode := DefaultArchiveFilePermissions,
      SHA1 := sha1Hex e.content, Size := e.content.length }

/-- On an archive whose file entries are all openable and readable the scan
succeeds and returns one descriptor per entry, in order. -/
theorem gatherArchiveLoop_ok {archive : List ZipEntry}
    (h : ∀ e ∈ archive, e.isDir = false → e.openErr = none ∧ e.readErr = none) :
    gatherArchiveLoop archive = .ok (archive.map archResourceOf) := by
  induction archive with
  | nil => rfl
  | cons e rest ih =>
    have hrest : ∀ x ∈ rest, x.isDir = false → x.openErr = none ∧ x.readErr = none :=
      fun x hx => h x (List.mem_cons_of_mem _ hx)
    obtain ⟨name, isDir, mode, method, content, openErr, readErr⟩ := e
    cases isDir with
    | true =>
      cases openErr <;> cases readErr <;>
        rw [gatherArchiveLoop, ih hrest] <;>
        simp [archResourceOf]
    | false =>
      obtain ⟨hoe, hre⟩ := h _ (List.mem_cons_self _ _) rfl
      simp only at hoe hre
      subst hoe hre
      rw [gatherArchiveLoop, ih hrest]
      simp [archResourceOf]

/-- From a pointwise relation between two lists, every member of the second
list is related to some member of the first. -/
theorem forall₂_exists_left {α β : Type} {P : α → β → Prop} {l₁ : List α} {l₂ : List β}
    (h : List.Forall₂ P l₁ l₂) : ∀ b ∈ l₂, ∃ a ∈ l₁, P a b := by
  induction h with
  | nil => intro b hb; cases hb
  | cons hP hrec ih =>
    intro b hb
    rcases List.mem_cons.mp hb with rfl | hb2
    · exact ⟨_, List.mem_cons_self _ _, hP⟩
    · obtain ⟨a, ha, hPa⟩ := ih b hb2
      exact ⟨a, List.mem_cons_of_mem _ ha, hPa⟩

/-- Pointwise relation between two `filterMap`s of the same list. -/
theorem forall₂_filterMap_of_rel {α β γ : Type} {f : α → Option β} {g : α → Option γ}
    {P : β → γ → Prop} {l : List α}
    (h : ∀ a ∈ l, (f a = none ∧ g a = none) ∨ ∃ b c, f a = some b ∧ g a = some c ∧ P b c) :
    List.Forall₂ P (l.filterMap f) (l.filterMap g) := by
  induction l with
  | nil => exact List.Forall₂.nil
  | cons a rest ih =>
    have hrest := fun x hx => h x (List.mem_cons_of_mem _ hx)
    rcases h a (List.mem_cons_self _ _) with ⟨hf, hg⟩ | ⟨b, c, hf, hg, hP⟩
    · rw [List.filterMap_cons_none hf, List.filterMap_cons_none hg]
      exact ih hrest
    · rw [List.filterMap_cons_some hf, List.filterMap_cons_some hg]
      exact List.Forall₂.cons hP (ih hrest)

/-- The archive entry a full-list directory pack writes for one walked entry
(`none` for the root, which the scan never lists). -/
def packedOf : List String × FSNode → Option ZipEntry
  | ([], _) => none
  | (relPath, .dirNode _) =>
    some (dirPackedEntry { Filename := joinPath relPath, Mode := DefaultFolderPermissions })
  | (relPath, .fileNode mode content _ _) =>
    some (filePackedEntry
      { Filename := joinPath relPath, Mode := fixMode mode,
        SHA1 := sha1Hex content, Size := content.length } content)

/-- Unfolding lemma: `zipDirLoop` step when the descriptor resolves to a
directory. -/
theorem zipDirLoop_cons_of_dir {fs : DirFS} {resource : Resource} {rdErr : Option String}
    (sourceDir : String) (rest : List Resource)
    (hl : lookupFS fs (splitPath resource.Filename) = some (.dirNode rdErr)) :
    zipDirLoop sourceDir fs (resource :: rest) =
      match zipDirLoop sourceDir fs rest with
      | .error err => .error err
      | .ok entries => .ok (dirPackedEntry resource :: entries) := by
  rw [zipDirLoop_cons, hl, addFileToZip_dir]
  rfl

/-- Unfolding lemma: `zipDirLoop` step when the descriptor resolves to a
readable file whose declared hash matches the bytes. -/
theorem zipDirLoop_cons_of_file {fs : DirFS} {resource : Resource} {mode : Nat}
    {content : List Nat} (sourceDir : String) (rest : List Resource)
    (hl : lookupFS fs (splitPath resource.Filename) = some (.fileNode mode content none none))
    (hsha : resource.SHA1 = sha1Hex content) :
    zipDirLoop sourceDir fs (resource :: rest) =
      match zipDirLoop sourceDir fs rest with
      | .error err => .error err
      | .ok entries => .ok (filePackedEntry resource content :: entries) := by
  have h1 : zipDirLoop sourceDir fs (resource :: rest)
      = match addFileToZipFromFileSystem (sourceDir ++ "/" ++ resource.Filename) content none
          false resource.Filename resource.SHA1 resource.Mode with
        | .error err => .error err
        | .ok entry =>
          match zipDirLoop sourceDir fs rest with
          | .error err => .error err
          | .ok entries => .ok (entry :: entries) := by
    rw [zipDirLoop_cons, hl]
  rw [h1, hsha, addFileToZip_file_ok]
  rfl

/-- A non-root file entry the walk reports no error for is openable and
readable. -/
theorem entryErr_file_none {a : String} {k : List String} {mode : Nat}
    {content : List Nat} {oe re : Option String}
    (h : entryErr ((a :: k), .fileNode mode content oe re) = none) :
    oe = none ∧ re = none := by
  cases oe <;> cases re <;> simp [entryErr] at h ⊢

/-- Packing the full descriptor list produced by an error-free scan of the
same tree succeeds, writing exactly one entry per non-root walked entry. -/
theorem zipDirLoop_pack_scan {fs : DirFS} (sourceDir : String)
    (hvalid : ∀ e ∈ fs, ∀ p ∈ e.1, p ≠ "" ∧ slashFree p = true)
    (hkeys : (fs.map (fun e => e.1)).Nodup)
    (hok : ∀ e ∈ fs, entryErr e = none) :
    ∀ {es : DirFS}, (∀ e ∈ es, e ∈ fs) →
      zipDirLoop sourceDir fs (es.filterMap resourceOf) = .ok (es.filterMap packedOf) := by
  intro es
  induction es with
  | nil => intro _; rfl
  | cons e rest ih =>
    intro hsub
    have hmem : e ∈ fs := hsub e (List.mem_cons_self _ _)
    have hrest : ∀ x ∈ rest, x ∈ fs := fun x hx => hsub x (List.mem_cons_of_mem _ hx)
    obtain ⟨relPath, node⟩ := e
    cases relPath with
    | nil =>
      rw [List.filterMap_cons_none (by cases node <;> rfl),
          List.filterMap_cons_none (by cases node <;> rfl)]
      exact ih hrest
    | cons a k =>
      have hsplit : splitPath (joinPath (a :: k)) = a :: k :=
        splitPath_joinPath (by simp) (fun p hp => hvalid _ hmem p hp)
      cases node with
      | dirNode rdErr =>
        have hr : resourceOf (a :: k, FSNode.dirNode rdErr)
            = some { Filename := joinPath (a :: k), Mode := DefaultFolderPermissions } := rfl
        have hp : packedOf (a :: k, FSNode.dirNode rdErr)
            = some (dirPackedEntry
                { Filename := joinPath (a :: k), Mode := DefaultFolderPermissions }) := rfl
        rw [List.filterMap_cons_some hr, List.filterMap_cons_some hp]
        rw [zipDirLoop_cons_of_dir sourceDir _ (by rw [hsplit]; exact lookupFS_of_mem hkeys hmem),
            ih hrest]
      | fileNode mode content openErr readErr =>
        have hr : resourceOf (a :: k, FSNode.fileNode mode content openErr readErr)
            = some { Filename := joinPath (a :: k), Mode := fixMode mode,
                     SHA1 := sha1Hex content, Size := content.length } := rfl
        have hp : packedOf (a :: k, FSNode.fileNode mode content openErr readErr)
            = some (filePackedEntry
                { Filename := joinPath (a :: k), Mode := fixMode mode,
                  SHA1 := sha1Hex content, Size := content.length } content) := rfl
        obtain ⟨hoe, hre⟩ := entryErr_file_none (hok _ hmem)
        subst hoe hre
        rw [List.filterMap_cons_some hr, List.filterMap_cons_some hp]
        rw [zipDirLoop_cons_of_file sourceDir _
              (by rw [hsplit]; exact lookupFS_of_mem hkeys hmem) rfl,
            ih hrest]

/-- C4: the first open/stat/read failure aborts the whole directory scan with
that I/O error; a successful scan means no entry failed.  Go's
`(resources, walkErr)` pair with non-nil `walkErr` is modelled as `.error`,
the accompanying partial slice being discarded, as every caller does. -/
theorem gatherDirectory_aborts_on_first_error :
    (∀ (fs : DirFS) (err : PackError), fs.findSome? entryErr = some err →
        GatherDirectoryResources fs = .error err) ∧
    (∀ (fs : DirFS) (resources : List Resource),
        GatherDirectoryResources fs = .ok resources → ∀ e ∈ fs, entryErr e = none) := by
  constructor
  · intro fs err h
    exact gatherDirLoop_first_error h
  · intro fs resources h e he
    cases hx : entryErr e with
    | none => rfl
    | some err =>
      have hne : fs.findSome? entryErr ≠ none := fun hnone => by
        have := (List.findSome?_eq_none_iff.mp hnone) e he
        rw [hx] at this
        cases this
      obtain ⟨err2, herr2⟩ := Option.ne_none_iff_exists'.mp hne
      rw [GatherDirectoryResources, gatherDirLoop_first_error herr2] at h
      cases h

theorem gatherDirectory_aborts_on_first_error_witness :
    GatherDirectoryResources
        [(["good"], .fileNode 420 [1] none none),
         (["bad"], .fileNode 420 [2] (some "open bad: permission denied") none)]
      = .error (.ioError "open bad: permission denied") ∧
    GatherDirectoryResources [(["good"], .fileNode 420 [1] none none)]
      = .ok [{ Filename := "good", Mode := 484, SHA1 := sha1Hex [1], Size := 1 }] ∧
    entryErr (["good"], .fileNode 420 [1] none none) = none :=
  ⟨gatherDirectory_aborts_on_first_error.1 _ _ rfl, rfl,
   gatherDirectory_aborts_on_first_error.2
     [(["good"], .fileNode 420 [1] none none)]
     [{ Filename := "good", Mode := 484, SHA1 := sha1Hex [1], Size := 1 }]
     rfl _ (List.mem_singleton.mpr rfl)⟩

/-- C5: `findInResources` returns the unique descriptor whose `Filename`
equals the queried name when present, and the zero-value `Resource{}` (empty
name, empty hash, zero mode, zero size) — not an error — when absent. -/
theorem findInResources_exact_or_zero :
    (∀ (path : String) (filesToInclude : List Resource) (r : Resource),
        (filesToInclude.map (fun x => x.Filename)).Nodup →
        r ∈ filesToInclude → r.Filename = path →
        findInResources path filesToInclude = r) ∧
    (∀ (path : String) (filesToInclude : List Resource),
        (∀ r ∈ filesToInclude, r.Filename ≠ path) →
        findInResources path filesToInclude
          = { Filename := "", Mode := 0, SHA1 := "", Size := 0 }) := by
  constructor
  · intro path rs r hnodup hmem hpath
    induction rs with
    | nil => cases hmem
    | cons a rest ih =>
      rw [List.map_cons, List.nodup_cons] at hnodup
      rcases List.mem_cons.mp hmem with rfl | h2
      · rw [findInResources, if_pos hpath]
      · have hmemmap : path ∈ rest.map (fun x => x.Filename) := by
          rw [← hpath]
          exact List.mem_map_of_mem _ h2
        have hane : a.Filename ≠ path := fun hap => hnodup.1 (by rw [hap]; exact hmemmap)
        rw [findInResources, if_neg hane]
        exact ih hnodup.2 h2
  · intro path rs h
    induction rs with
    | nil => rfl
    | cons a rest ih =>
      rw [findInResources, if_neg (h a (List.mem_cons_self _ _))]
      exact ih (fun r hr => h r (List.mem_cons_of_mem _ hr))

theorem findInResources_exact_or_zero_witness :
    findInResources "b" [{ Filename := "a" }, { Filename := "b", Mode := 1 }]
      = { Filename := "b", Mode := 1 } ∧
    findInResources "zz" [{ Filename := "a" }]
      = { Filename := "", Mode := 0, SHA1 := "", Size := 0 } :=
  ⟨findInResources_exact_or_zero.1 "b" [{ Filename := "a" }, { Filename := "b", Mode := 1 }]
      { Filename := "b", Mode := 1 } (by decide) (by decide) rfl,
   findInResources_exact_or_zero.2 "zz" [{ Filename := "a" }] (by decide)⟩

/-- C7: on a readable archive the scan lists every entry in order; a
directory entry gets the fixed default mode `0755` (owner rwx, group/other
rx) and no hash; a file entry gets the fixed default mode `0744`, the digest
of its streamed bytes and its size. -/
theorem gatherArchive_entry_shape :
    DefaultFolderPermissions = 0o755 ∧ DefaultArchiveFilePermissions = 0o744 ∧
    ∀ archive : List ZipEntry,
      (∀ e ∈ archive, e.isDir = false → e.openErr = none ∧ e.readErr = none) →
      GatherArchiveResources archive = .ok (archive.map archResourceOf) :=
  ⟨rfl, rfl, fun _ h => gatherArchiveLoop_ok h⟩

theorem gatherArchive_entry_shape_witness :
    GatherArchiveResources
        [{ name := "d/", isDir := true, mode := 448 },
         { name := "f", content := [3, 4] }]
      = .ok [{ Filename := "d/", Mode := 0o755 },
             { Filename := "f", Mode := 0o744, SHA1 := sha1Hex [3, 4], Size := 2 }] :=
  gatherArchive_entry_shape.2.2
    [{ name := "d/", isDir := true, mode := 448 }, { name := "f", content := [3, 4] }]
    (by decide)

/-- Paths assembled by joining non-root keys are the filtered keys mapped
through `joinPath`. -/
theorem filterMap_joinPath_eq (l : DirFS) :
    l.filterMap (fun e => if e.1 = [] then none else some (joinPath e.1))
      = ((l.map (fun e => e.1)).filter (fun k => k ≠ [])).map joinPath := by
  induction l with
  | nil => rfl
  | cons e rest ih =>
    by_cases hk : e.1 = []
    · rw [List.filterMap_cons_none (by rw [if_pos hk]), List.map_cons,
          List.filter_cons_of_neg (by simp [hk])]
      exact ih
    · rw [List.filterMap_cons_some (by rw [if_neg hk]), List.map_cons,
          List.filter_cons_of_pos (by simp [hk]), List.map_cons, ih]

/-- C6: an error-free directory scan returns exactly one descriptor per
non-root walked entry, whose `Filename` is the entry's relative location
joined with forward slashes, with no duplicate paths. -/
theorem gatherDirectory_visits_all_entries (fs : DirFS)
    (hvalid : ∀ e ∈ fs, ∀ p ∈ e.1, p ≠ "" ∧ slashFree p = true)
    (hkeys : (fs.map (fun e => e.1)).Nodup)
    (hok : ∀ e ∈ fs, entryErr e = none) :
    ∃ resources, GatherDirectoryResources fs = .ok resources ∧
      resources.map (fun r => r.Filename)
        = ((fs.map (fun e => e.1)).filter (fun k => k ≠ [])).map joinPath ∧
      (resources.map (fun r => r.Filename)).Nodup := by
  have hpoint : ∀ e : List String × FSNode,
      (resourceOf e).map (fun r => r.Filename)
        = if e.1 = [] then none else some (joinPath e.1) := by
    rintro ⟨k, node⟩
    cases k <;> cases node <;> rfl
  have hmapeq : (fs.filterMap resourceOf).map (fun r => r.Filename)
      = ((fs.map (fun e => e.1)).filter (fun k => k ≠ [])).map joinPath := by
    rw [List.map_filterMap]
    simp only [hpoint]
    exact filterMap_joinPath_eq _
  have hnd : ((((fs.map (fun e => e.1)).filter (fun k => k ≠ []))).map joinPath).Nodup := by
    refine List.Nodup.map_on ?_ (hkeys.filter _)
    intro x hx y hy hxy
    have hx2 := List.mem_filter.mp hx
    have hy2 := List.mem_filter.mp hy
    have hxvalid : ∀ p ∈ x, p ≠ "" ∧ slashFree p = true := by
      obtain ⟨a, ha, rfl⟩ := List.mem_map.mp hx2.1
      exact hvalid a ha
    have hyvalid : ∀ p ∈ y, p ≠ "" ∧ slashFree p = true := by
      obtain ⟨a, ha, rfl⟩ := List.mem_map.mp hy2.1
      exact hvalid a ha
    have hxne : x ≠ [] := by simpa using hx2.2
    have hyne : y ≠ [] := by simpa using hy2.2
    calc x = splitPath (joinPath x) := (splitPath_joinPath hxne hxvalid).symm
      _ = splitPath (joinPath y) := by rw [hxy]
      _ = y := splitPath_joinPath hyne hyvalid
  exact ⟨fs.filterMap resourceOf, gatherDirLoop_ok hok, hmapeq, by rw [hmapeq]; exact hnd⟩

theorem gatherDirectory_visits_all_entries_witness :
    ∃ resources,
      GatherDirectoryResources
          [([], .dirNode none), (["a"], .dirNode none),
           (["a", "b"], .fileNode 420 [7] none none)] = .ok resources ∧
      resources.map (fun r => r.Filename)
        = ((([([], FSNode.dirNode none), (["a"], FSNode.dirNode none),
              (["a", "b"], FSNode.fileNode 420 [7] none none)] : DirFS).map
                (fun e => e.1)).filter (fun k => k ≠ [])).map joinPath ∧
      (resources.map (fun r => r.Filename)).Nodup :=
  gatherDirectory_visits_all_entries
    [([], .dirNode none), (["a"], .dirNode none), (["a", "b"], .fileNode 420 [7] none none)]
    (by decide) (by decide) (by decide)

/-- What the spec's shared post-condition asserts of one inclusion-list
descriptor and one written entry: declared mode, deflate method, the
descriptor's name (a directory possibly gaining the trailing `/`), and for a
file content whose fingerprint is the declared hash. -/
def packedMatchesResource (r : Resource) (e : ZipEntry) : Prop :=
  e.mode = r.Mode ∧ e.method = zipDeflate ∧
  (e.isDir = true → (e.name = r.Filename ∨ e.name = r.Filename ++ "/") ∧ e.content = []) ∧
  (e.isDir = false → e.name = r.Filename ∧ sha1Hex e.content = r.SHA1)

/-- What `ZipArchiveResources` actually guarantees of one *source-archive*
entry and the corresponding written entry: the entry keeps its own name
(directories possibly gaining the trailing `/`) and kind, takes the mode of
the descriptor the inclusion-list lookup returned, and a file keeps its bytes,
whose fingerprint must equal that looked-up descriptor's hash. -/
def repackedMatchesSource (filesToInclude : List Resource) (src e : ZipEntry) : Prop :=
  e.isDir = src.isDir ∧ e.mode = (findInResources src.name filesToInclude).Mode ∧
  e.method = zipDeflate ∧
  (src.isDir = true → (e.name = src.name ∨ e.name = src.name ++ "/") ∧ e.content = []) ∧
  (src.isDir = false → e.name = src.name ∧ e.content = src.content ∧
    sha1Hex e.content = (findInResources src.name filesToInclude).SHA1)

/-- C1 counterexample: `ZipArchiveResources` is driven by the source
archive's listing, not by the inclusion list.  With an inclusion list naming
*no* entries, repackaging an archive holding the directory `d/` still
succeeds and the new archive contains `d/` (with the zero descriptor's mode
0), so the output does not consist of the entries named by the inclusion
list. -/
theorem zipArchiveResources_packs_unlisted_entry :
    ZipArchiveResources [{ name := "d/", isDir := true, mode := 448 }] []
      = .ok [{ name := "d/", isDir := true, mode := 0, method := zipDeflate }] ∧
    "d/" ∉ ([] : List Resource).map (fun r => r.Filename) :=
  ⟨rfl, by simp⟩

/-- C1 amended: `ZipDirectoryResources` produces exactly the entries named by
the inclusion list, with declared permissions and hash-verified content;
`ZipArchiveResources` instead produces exactly the *source archive's*
entries, with the looked-up descriptor's mode, succeeding only when every
file entry's fingerprint matches the looked-up descriptor's hash. -/
theorem pack_postconditions :
    (∀ (sourceDir : String) (fs : DirFS) (filesToInclude : List Resource)
        (out : List ZipEntry),
        ZipDirectoryResources sourceDir fs filesToInclude = .ok out →
        List.Forall₂ packedMatchesResource filesToInclude out) ∧
    (∀ (sourceArchive : List ZipEntry) (filesToInclude : List Resource)
        (out : List ZipEntry),
        ZipArchiveResources sourceArchive filesToInclude = .ok out →
        List.Forall₂ (repackedMatchesSource filesToInclude) sourceArchive out) := by
  constructor
  · intro sourceDir fs filesToInclude out h
    refine (zipDirLoop_ok_forall₂ h).imp ?_
    intro r e hre
    rcases hre with ⟨rdErr, _, rfl⟩ | ⟨mode, content, _, hsha, rfl⟩
    · refine ⟨rfl, rfl, fun _ => ⟨?_, rfl⟩, fun habs => ?_⟩
      · show (if hasSuffix r.Filename "/" then r.Filename else r.Filename ++ "/")
              = r.Filename
            ∨ (if hasSuffix r.Filename "/" then r.Filename else r.Filename ++ "/")
              = r.Filename ++ "/"
        by_cases hs : hasSuffix r.Filename "/"
        · rw [if_pos hs]; exact Or.inl rfl
        · rw [if_neg hs]; exact Or.inr rfl
      · simp [dirPackedEntry] at habs
    · exact ⟨rfl, rfl, fun habs => by simp [filePackedEntry] at habs,
        fun _ => ⟨rfl, hsha.symm⟩⟩
  · intro sourceArchive filesToInclude out h
    refine (zipArchiveLoop_ok_forall₂ h).imp ?_
    intro src e hre
    rcases hre with ⟨hoe, ⟨hd, rfl⟩ | ⟨hd, hre2, hsha, rfl⟩⟩
    · refine ⟨hd.symm, rfl, rfl, fun _ => ⟨?_, rfl⟩, fun habs => ?_⟩
      · show (if hasSuffix src.name "/" then src.name else src.name ++ "/")
              = src.name
            ∨ (if hasSuffix src.name "/" then src.name else src.name ++ "/")
              = src.name ++ "/"
        by_cases hs : hasSuffix src.name "/"
        · rw [if_pos hs]; exact Or.inl rfl
        · rw [if_neg hs]; exact Or.inr rfl
      · rw [habs] at hd; cases hd
    · refine ⟨hd.symm, rfl, rfl, fun habs => ?_, fun _ => ⟨rfl, rfl, hsha.symm⟩⟩
      rw [habs] at hd; cases hd

theorem pack_postconditions_witness :
    List.Forall₂ packedMatchesResource
      [{ Filename := "f", Mode := 420, SHA1 := sha1Hex [1], Size := 1 }]
      [{ name := "f", isDir := false, mode := 420, method := zipDeflate, content := [1] }] ∧
    List.Forall₂ (repackedMatchesSource [{ Filename := "d/", Mode := 493 }])
      [{ name := "d/", isDir := true, mode := 448 }]
      [{ name := "d/", isDir := true, mode := 493, method := zipDeflate }] :=
  ⟨pack_postconditions.1 "app" [(["f"], .fileNode 420 [1] none none)]
      [{ Filename := "f", Mode := 420, SHA1 := sha1Hex [1], Size := 1 }]
      [{ name := "f", isDir := false, mode := 420, method := zipDeflate, content := [1] }]
      rfl,
   pack_postconditions.2 [{ name := "d/", isDir := true, mode := 448 }]
      [{ Filename := "d/", Mode := 493 }]
      [{ name := "d/", isDir := true, mode := 493, method := zipDeflate }] rfl⟩

/-- C2: the digest compared after the copy is the digest of exactly the bytes
written (the copy streams through one `MultiWriter`, a single pass); a
mismatch with the declared hash fails the write with `FileChangedError`
naming the source file, and either packing loop propagates that failure, so
no mismatched data is accepted into a successful result. -/
theorem hash_mismatch_fails_fileChanged :
    (∀ (srcPath : String) (srcContent : List Nat) (destPath sha1Sum : String) (mode : Nat),
        sha1Sum ≠ sha1Hex srcContent →
        addFileToZipFromFileSystem srcPath srcContent none false destPath sha1Sum mode
          = .error (.fileChanged ⟨srcPath⟩)) ∧
    (∀ (srcPath : String) (srcContent : List Nat) (destPath sha1Sum : String) (mode : Nat)
        (entry : ZipEntry),
        addFileToZipFromFileSystem srcPath srcContent none false destPath sha1Sum mode
          = .ok entry →
        entry.content = srcContent ∧ sha1Hex entry.content = sha1Sum) ∧
    (∀ (sourceDir : String) (fs : DirFS) (resource : Resource) (rest : List Resource)
        (mode : Nat) (content : List Nat),
        lookupFS fs (splitPath resource.Filename) = some (.fileNode mode content none none) →
        resource.SHA1 ≠ sha1Hex content →
        ZipDirectoryResources sourceDir fs (resource :: rest)
          = .error (.fileChanged ⟨sourceDir ++ "/" ++ resource.Filename⟩)) ∧
    (∀ (e : ZipEntry) (rest : List ZipEntry) (filesToInclude : List Resource),
        e.isDir = false → e.openErr = none → e.readErr = none →
        (findInResources e.name filesToInclude).SHA1 ≠ sha1Hex e.content →
        ZipArchiveResources (e :: rest) filesToInclude
          = .error (.fileChanged ⟨e.name⟩)) := by
  refine ⟨fun srcPath srcContent destPath sha1Sum mode h =>
      addFileToZip_file_mismatch _ _ _ _ _ h, ?_, ?_, ?_⟩
  · intro srcPath srcContent destPath sha1Sum mode entry h
    obtain ⟨_, hsha, hentry⟩ := addFileToZip_file_ok_inv h
    subst hentry
    exact ⟨rfl, hsha.symm⟩
  · intro sourceDir fs resource rest mode content hl hmis
    have h1 : zipDirLoop sourceDir fs (resource :: rest)
        = match addFileToZipFromFileSystem (sourceDir ++ "/" ++ resource.Filename) content none
            false resource.Filename resource.SHA1 resource.Mode with
          | .error err => .error err
          | .ok entry =>
            match zipDirLoop sourceDir fs rest with
            | .error err => .error err
            | .ok entries => .ok (entry :: entries) := by
      rw [zipDirLoop_cons, hl]
    rw [ZipDirectoryResources, h1, addFileToZip_file_mismatch _ _ _ _ _ hmis]
  · intro e rest filesToInclude hd hoe hre hmis
    rw [ZipArchiveResources, zipArchiveLoop_cons, hoe, hd, hre,
        addFileToZip_file_mismatch _ _ _ _ _ hmis]

theorem hash_mismatch_fails_fileChanged_witness :
    addFileToZipFromFileSystem "src/f" [1] none false "f" "bad" 420
      = .error (.fileChanged ⟨"src/f"⟩) ∧
    sha1Hex [1] = sha1Hex [1] ∧
    ZipDirectoryResources "app" [(["f"], .fileNode 420 [2] none none)]
        [{ Filename := "f", SHA1 := "stale" }]
      = .error (.fileChanged ⟨"app/f"⟩) ∧
    ZipArchiveResources [{ name := "f", content := [2] }] [{ Filename := "f", SHA1 := "stale" }]
      = .error (.fileChanged ⟨"f"⟩) :=
  ⟨hash_mismatch_fails_fileChanged.1 "src/f" [1] "f" "bad" 420 (by decide),
   (hash_mismatch_fails_fileChanged.2.1 "src/f" [1] "f" (sha1Hex [1]) 420
      { name := "f", isDir := false, mode := 420, method := zipDeflate, content := [1] }
      rfl).2,
   hash_mismatch_fails_fileChanged.2.2.1 "app" [(["f"], .fileNode 420 [2] none none)]
      { Filename := "f", SHA1 := "stale" } [] 420 [2] rfl (by decide),
   hash_mismatch_fails_fileChanged.2.2.2 { name := "f", content := [2] } []
      [{ Filename := "f", SHA1 := "stale" }] rfl rfl rfl (by decide)⟩

/-- C3 counterexample: repackaging an archive holding the directory `d/` with
its own mode `0700` (448), with an inclusion list declaring mode `0755` (493)
for `d/`, writes the directory with the *descriptor's* mode 493, not the
entry's own 448 — the claimed dir/file mode asymmetry does not exist; line
159 passes `resource.Mode` for every entry. -/
theorem zipArchive_dir_mode_from_descriptor :
    ZipArchiveResources [{ name := "d/", isDir := true, mode := 448 }]
        [{ Filename := "d/", Mode := 493 }]
      = .ok [{ name := "d/", isDir := true, mode := 493, method := zipDeflate }] ∧
    (493 : Nat) ≠ 448 :=
  ⟨rfl, by decide⟩

/-- C3 amended: every entry `ZipArchiveResources` writes — directory or file
alike — carries the mode of the descriptor found in the inclusion list by the
entry's own name (the zero mode when no descriptor matches); the entry's own
discovered mode is never used. -/
theorem zipArchive_modes_from_inclusion_lookup (sourceArchive : List ZipEntry)
    (filesToInclude : List Resource) (out : List ZipEntry)
    (h : ZipArchiveResources sourceArchive filesToInclude = .ok out) :
    List.Forall₂ (fun src e => ZipEntry.mode e
      = (findInResources (ZipEntry.name src) filesToInclude).Mode) sourceArchive out := by
  refine (zipArchiveLoop_ok_forall₂ h).imp ?_
  intro src e hre
  rcases hre with ⟨_, ⟨_, rfl⟩ | ⟨_, _, _, rfl⟩⟩ <;> rfl

theorem zipArchive_modes_from_inclusion_lookup_witness :
    List.Forall₂ (fun src e => ZipEntry.mode e
      = (findInResources (ZipEntry.name src) [{ Filename := "d/", Mode := 493 }]).Mode)
      [{ name := "d/", isDir := true, mode := 448 }]
      [{ name := "d/", isDir := true, mode := 493, method := zipDeflate }] :=
  zipArchive_modes_from_inclusion_lookup [{ name := "d/", isDir := true, mode := 448 }]
    [{ Filename := "d/", Mode := 493 }]
    [{ name := "d/", isDir := true, mode := 493, method := zipDeflate }] rfl

/-- C10: a directory entry handed to `addFileToZipFromFileSystem` is written
with no content bytes and the declared hash is never compared — whatever
`sha1Sum` says, even for an unreadable stream, the write succeeds, so a
`FileChanged` failure can only arise for file entries. -/
theorem dir_entries_never_fail_hash_check (srcPath : String) (srcContent : List Nat)
    (srcReadErr : Option String) (destPath sha1Sum : String) (mode : Nat) :
    addFileToZipFromFileSystem srcPath srcContent srcReadErr true destPath sha1Sum mode
      = .ok { name := if hasSuffix destPath "/" then destPath else destPath ++ "/",
              isDir := true, mode := mode, method := zipDeflate, content := [] } :=
  addFileToZip_dir srcPath srcContent srcReadErr destPath sha1Sum mode

/-- C8: packing a directory with the full descriptor list of its own
error-free scan succeeds, and scanning the resulting archive yields, for
every hash-carrying (file) descriptor, the same name, the same content hash
and the same size as the original scan; modes may differ. -/
theorem pack_scan_roundTrip (fs : DirFS) (sourceDir : String)
    (hvalid : ∀ e ∈ fs, ∀ p ∈ e.1, p ≠ "" ∧ slashFree p = true)
    (hkeys : (fs.map (fun e => e.1)).Nodup)
    (hok : ∀ e ∈ fs, entryErr e = none) :
    ∃ resources out resources2,
      GatherDirectoryResources fs = .ok resources ∧
      ZipDirectoryResources sourceDir fs resources = .ok out ∧
      GatherArchiveResources out = .ok resources2 ∧
      List.Forall₂ (fun r r2 => Resource.SHA1 r ≠ "" →
          Resource.Filename r2 = Resource.Filename r ∧ Resource.SHA1 r2 = Resource.SHA1 r ∧
          Resource.Size r2 = Resource.Size r)
        resources resources2 := by
  refine ⟨fs.filterMap resourceOf, fs.filterMap packedOf,
          (fs.filterMap packedOf).map archResourceOf,
          gatherDirLoop_ok hok,
          zipDirLoop_pack_scan sourceDir hvalid hkeys hok (fun e he => he),
          gatherArchiveLoop_ok ?_, ?_⟩
  · intro e he _
    obtain ⟨a, ha, hpa⟩ := List.mem_filterMap.mp he
    obtain ⟨k, node⟩ := a
    cases k with
    | nil => cases node <;> cases hpa
    | cons x xs =>
      cases node with
      | dirNode rdErr =>
        cases hpa
        exact ⟨rfl, rfl⟩
      | fileNode m c oe re =>
        cases hpa
        exact ⟨rfl, rfl⟩
  · rw [List.map_filterMap]
    refine forall₂_filterMap_of_rel ?_
    rintro ⟨k, node⟩ hmem
    cases k with
    | nil =>
      left
      cases node <;> exact ⟨rfl, rfl⟩
    | cons x xs =>
      right
      cases node with
      | dirNode rdErr =>
        refine ⟨_, _, rfl, rfl, fun habs => absurd rfl habs⟩
      | fileNode m c oe re =>
        exact ⟨_, _, rfl, rfl, fun _ => ⟨rfl, rfl, rfl⟩⟩

theorem pack_scan_roundTrip_witness :
    ∃ resources out resources2,
      GatherDirectoryResources
          [([], .dirNode none), (["main"], .fileNode 420 [1, 2, 3] none none),
           (["logs"], .dirNode none)] = .ok resources ∧
      ZipDirectoryResources "app"
          [([], .dirNode none), (["main"], .fileNode 420 [1, 2, 3] none none),
           (["logs"], .dirNode none)] resources = .ok out ∧
      GatherArchiveResources out = .ok resources2 ∧
      List.Forall₂ (fun r r2 => Resource.SHA1 r ≠ "" →
          Resource.Filename r2 = Resource.Filename r ∧ Resource.SHA1 r2 = Resource.SHA1 r ∧
          Resource.Size r2 = Resource.Size r)
        resources resources2 :=
  pack_scan_roundTrip
    [([], .dirNode none), (["main"], .fileNode 420 [1, 2, 3] none none),
     (["logs"], .dirNode none)]
    "app" (by decide) (by decide) (by decide)

/-- C9: in the output of either packing entry point, every directory entry's
name ends with `/` (appended when the source representation lacked it) and
every file entry is written with the deflate method.  (The header's method is
in fact set to deflate for directories as well.) -/
theorem packed_entries_dir_slash_and_deflate :
    (∀ (sourceDir : String) (fs : DirFS) (filesToInclude : List Resource)
        (out : List ZipEntry),
        ZipDirectoryResources sourceDir fs filesToInclude = .ok out →
        ∀ e ∈ out, (ZipEntry.isDir e = true → hasSuffix (ZipEntry.name e) "/" = true) ∧
          ZipEntry.method e = zipDeflate) ∧
    (∀ (sourceArchive : List ZipEntry) (filesToInclude : List Resource)
        (out : List ZipEntry),
        ZipArchiveResources sourceArchive filesToInclude = .ok out →
        ∀ e ∈ out, (ZipEntry.isDir e = true → hasSuffix (ZipEntry.name e) "/" = true) ∧
          ZipEntry.method e = zipDeflate) := by
  constructor
  · intro sourceDir fs filesToInclude out h e he
    obtain ⟨r, _, hre⟩ := forall₂_exists_left (zipDirLoop_ok_forall₂ h) e he
    rcases hre with ⟨rdErr, _, rfl⟩ | ⟨mode, content, _, _, rfl⟩
    · refine ⟨fun _ => ?_, rfl⟩
      show hasSuffix (if hasSuffix r.Filename "/" then r.Filename else r.Filename ++ "/") "/"
          = true
      by_cases hs : hasSuffix r.Filename "/"
      · rw [if_pos hs]; exact hs
      · rw [if_neg hs]; exact hasSuffix_append_slash _
    · exact ⟨fun habs => by simp [filePackedEntry] at habs, rfl⟩
  · intro sourceArchive filesToInclude out h e he
    obtain ⟨src, _, hre⟩ := forall₂_exists_left (zipArchiveLoop_ok_forall₂ h) e he
    rcases hre with ⟨_, ⟨_, rfl⟩ | ⟨_, _, _, rfl⟩⟩
    · refine ⟨fun _ => ?_, rfl⟩
      show hasSuffix (if hasSuffix src.name "/" then src.name else src.name ++ "/") "/"
          = true
      by_cases hs : hasSuffix src.name "/"
      · rw [if_pos hs]; exact hs
      · rw [if_neg hs]; exact hasSuffix_append_slash _
    · exact ⟨fun habs => by simp [repackedFileEntry] at habs, rfl⟩

theorem packed_entries_dir_slash_and_deflate_witness :
    (∀ e ∈ [({ name := "logs/", isDir := true, mode := 493, method := zipDeflate } : ZipEntry)],
      (ZipEntry.isDir e = true → hasSuffix (ZipEntry.name e) "/" = true) ∧
        ZipEntry.method e = zipDeflate) ∧
    (∀ e ∈ [({ name := "x/", isDir := true, mode := 0, method := zipDeflate } : ZipEntry)],
      (ZipEntry.isDir e = true → hasSuffix (ZipEntry.name e) "/" = true) ∧
        ZipEntry.method e = zipDeflate) :=
  ⟨packed_entries_dir_slash_and_deflate.1 "app" [(["logs"], .dirNode none)]
      [{ Filename := "logs", Mode := 493 }]
      [{ name := "logs/", isDir := true, mode := 493, method := zipDeflate }] rfl,
   packed_entries_dir_slash_and_deflate.2 [{ name := "x", isDir := true, mode := 448 }] []
      [{ name := "x/", isDir := true, mode := 0, method := zipDeflate }] rfl⟩

end V2Action
